/-
Verification of the numerical-methods core of simulation-foundry-core.

The C++ sources under src/ are shallowly embedded over exact rational
arithmetic (ℚ stands for the C++ `double`, i.e. real-number semantics of
the arithmetic the code performs; floating-point rounding is outside the
model).  Vectors `std::vector<double>` become `List ℚ`, matrices
`std::vector<std::vector<double>>` become `List (List ℚ)`.  Out-of-range
`operator[]` reads (undefined behavior in the source) are modelled totally
with `List.getD`.  `throw std::invalid_argument` becomes `Except.error`.
-/
import Mathlib

/- ### Small list helpers shared by the embeddings -/

/-- Entry (i, j) of a matrix stored as a list of rows, total via defaults. -/
def get2 (A : List (List ℚ)) (i j : ℕ) : ℚ := (A.getD i []).getD j 0

lemma range_map_getD_lt {α : Type} (g : ℕ → α) (d : α) {n r : ℕ} (hr : r < n) :
    ((List.range n).map g).getD r d = g r := by
  rw [List.getD_eq_getElem?_getD, List.getElem?_map, List.getElem?_range hr]
  rfl

lemma list_range_map_getD {α : Type} (l : List α) (d : α) :
    (List.range l.length).map (fun j => l.getD j d) = l := by
  induction l with
  | nil => rfl
  | cons a tl ih =>
      rw [List.length_cons, List.range_succ_eq_map, List.map_cons, List.map_map]
      have h1 : ((fun j => (a :: tl).getD j d) ∘ Nat.succ) = fun j => tl.getD j d := by
        funext j
        simp
      rw [h1, ih]
      simp

lemma getD_replicate_zero (n j : ℕ) : (List.replicate n (0 : ℚ)).getD j 0 = 0 := by
  induction n generalizing j with
  | zero => rfl
  | succ n ih =>
      cases j with
      | zero => rfl
      | succ j => simp [List.replicate_succ, ih j]

lemma getD_set_self (l : List ℚ) (i : ℕ) (v : ℚ) (hi : i < l.length) :
    (l.set i v).getD i 0 = v := by
  induction l generalizing i with
  | nil => simp at hi
  | cons a tl ih =>
      cases i with
      | zero => rfl
      | succ i => simpa using ih i (by simpa using hi)

lemma getD_set_ne (l : List ℚ) (i k : ℕ) (v : ℚ) (hk : k ≠ i) :
    (l.set i v).getD k 0 = l.getD k 0 := by
  induction l generalizing i k with
  | nil => rfl
  | cons a tl ih =>
      cases i with
      | zero =>
          cases k with
          | zero => exact absurd rfl hk
          | succ k => rfl
      | succ i =>
          cases k with
          | zero => rfl
          | succ k => simpa using ih i k (fun h => hk (by simpa using h))

/- ### Euclidean norm (src/src/utils/math.cpp, `vec_norm`) -/

/-- Mirrors the accumulation loop of `vec_norm`: `sum += val * val`.
`vec_norm` itself returns `sqrt(sum)`; only the comparison
`vec_norm v < tol` is ever consumed (newton_raphson.cpp line 23), and over
the reals `sqrt s < tol ↔ 0 < tol ∧ s < tol²` for `s ≥ 0`, which is the
rational-exact form used below. -/
def vec_norm_sq (v : List ℚ) : ℚ := v.foldl (fun sum val => sum + val * val) 0

/-- Exact rendering of the test `vec_norm v < tol` from newton_raphson.cpp
line 23 (see `vec_norm_sq`). -/
def normLt (v : List ℚ) (tol : ℚ) : Bool :=
  decide (0 < tol) && decide (vec_norm_sq v < tol * tol)

lemma vec_norm_sq_foldl_replicate_zero (n : ℕ) (a : ℚ) :
    (List.replicate n (0 : ℚ)).foldl (fun sum val => sum + val * val) a = a := by
  induction n generalizing a with
  | zero => rfl
  | succ n ih => simpa [List.replicate_succ] using ih a

lemma vec_norm_sq_replicate_zero (n : ℕ) :
    vec_norm_sq (List.replicate n (0 : ℚ)) = 0 :=
  vec_norm_sq_foldl_replicate_zero n 0

/- ### LinearSolver (src/src/linear_solvers/gaussian_elimination.cpp) -/

/-- Partial pivoting search (lines 115-118): start from `maxRow = i`, scan
`k = i+1 .. n-1`, take `k` when `|A[k][i]| > |A[maxRow][i]|` (strict, so the
first maximum encountered wins). -/
def pivotIndex (A : List (List ℚ)) (n i : ℕ) : ℕ :=
  (List.range' (i + 1) (n - (i + 1))).foldl
    (fun maxRow k => if |get2 A k i| > |get2 A maxRow i| then k else maxRow) i

/-- `std::swap(A[i], A[maxRow])` on the row list (line 119). -/
def swapRows (A : List (List ℚ)) (i j : ℕ) : List (List ℚ) :=
  (A.set i (A.getD j [])).set j (A.getD i [])

/-- `std::swap(b[i], b[maxRow])` (line 120). -/
def swapVec (b : List ℚ) (i j : ℕ) : List ℚ :=
  (b.set i (b.getD j 0)).set j (b.getD i 0)

/-- Elimination below pivot `i` (lines 123-129): for `k = i+1 .. n-1`,
`factor = A[k][i] / A[i][i]`, then `A[k][j] -= factor * A[i][j]` for
`j = i .. n-1` and `b[k] -= factor * b[i]`. -/
def elimStep (n i : ℕ) (Ab : List (List ℚ) × List ℚ) : List (List ℚ) × List ℚ :=
  (List.range' (i + 1) (n - (i + 1))).foldl
    (fun Ab k =>
      let factor := get2 Ab.1 k i / get2 Ab.1 i i
      let newRow :=
        (List.range' i (n - i)).foldl
          (fun row j => row.set j (row.getD j 0 - factor * get2 Ab.1 i j))
          (Ab.1.getD k [])
      (Ab.1.set k newRow, Ab.2.set k (Ab.2.getD k 0 - factor * Ab.2.getD i 0)))
    Ab

/-- Forward elimination phase (lines 113-130), acting on the solver's working
copies of `A` and `b`. -/
def forwardElim (n : ℕ) (Ab : List (List ℚ) × List ℚ) : List (List ℚ) × List ℚ :=
  (List.range n).foldl
    (fun Ab i =>
      let m := pivotIndex Ab.1 n i
      elimStep n i (swapRows Ab.1 i m, swapVec Ab.2 i m))
    Ab

/-- Back substitution (lines 133-139): for `i = n-1` down to `0`,
`x[i] = (b[i] - Σ_{j>i} A[i][j]·x[j]) / A[i][i]`, into the pre-allocated
solution vector of size `n`. -/
def backSubst (n : ℕ) (A : List (List ℚ)) (b : List ℚ) : List ℚ :=
  (List.range n).reverse.foldl
    (fun x i =>
      let s :=
        (List.range' (i + 1) (n - (i + 1))).foldl
          (fun acc j => acc - get2 A i j * x.getD j 0) (b.getD i 0)
      x.set i (s / get2 A i i))
    (List.replicate n 0)

/-- `gaussian_elimination` (lines 106-142).  The C++ signature receives `A`
and `b` by value, so the function body operates on copies private to the
call; the embedding composes the two phases on those copies. -/
def gaussian_elimination (A : List (List ℚ)) (b : List ℚ) : List ℚ :=
  let n := A.length
  let Ab := forwardElim n (A, b)
  backSubst n Ab.1 Ab.2

/-- A caller of `gaussian_elimination`: the caller's own bindings for the
matrix and right-hand side. -/
structure CallerEnv where
  A : List (List ℚ)
  b : List ℚ
deriving DecidableEq

/-- One call to `gaussian_elimination` as seen from a caller environment.
The C++ parameters (`std::vector<std::vector<double>> A`,
`std::vector<double> b`, lines 106-107) are declared by value, so the callee
receives copies and the caller's environment flows through unchanged; the
call yields the solution vector alongside the untouched environment. -/
def ge_call (env : CallerEnv) : CallerEnv × List ℚ :=
  (env, gaussian_elimination env.A env.b)

example : gaussian_elimination [[1, 0], [0, 1]] [3, 4] = [3, 4] := by
  norm_num [gaussian_elimination, forwardElim, backSubst, elimStep, pivotIndex,
    swapRows, swapVec, get2, List.range_succ, List.range'_succ, List.replicate_succ]

example : gaussian_elimination [[0, 1], [1, 0]] [3, 4] = [4, 3] := by
  norm_num [gaussian_elimination, forwardElim, backSubst, elimStep, pivotIndex,
    swapRows, swapVec, get2, List.range_succ, List.range'_succ, List.replicate_succ]

example : forwardElim 2 ([[0, 1], [1, 0]], [1, 2]) = ([[1, 0], [0, 1]], [2, 1]) := by
  norm_num [forwardElim, elimStep, pivotIndex, swapRows, swapVec, get2,
    List.range_succ, List.range'_succ]

/- ### JacobianEstimator (src/src/finite_difference/forward_difference.cpp) -/

/-- Default finite-difference step `h = 1e-8`
(forward_difference.h, last parameter). -/
def fd_h_default : ℚ := 1e-8

/-- `xPerturbed = x; xPerturbed[i] += h` (lines 61-62). -/
def perturb (x : List ℚ) (i : ℕ) (h : ℚ) : List ℚ := x.set i (x.getD i 0 + h)

/-- `forward_difference` (lines 53-71): `n = x.size()`, evaluate `Fx = f(x)`
once, then for each column `i` evaluate `f` at the perturbed point and fill
`J[j][i] = (FxPerturbed[j] - Fx[j]) / h`. -/
def forward_difference (f : List ℚ → List ℚ) (x : List ℚ) (h : ℚ) :
    List (List ℚ) :=
  let n := x.length
  let Fx := f x
  let FxPert := (List.range n).map (fun i => f (perturb x i h))
  (List.range n).map (fun j =>
    (List.range n).map (fun i => ((FxPert.getD i []).getD j 0 - Fx.getD j 0) / h))

/- ### NonlinearSolver (src/src/root_finders/newton_raphson.cpp) -/

/-- Defaults of the `newton_raphson` declaration
(newton_raphson.h, `maxIter = 100`, `tol = 1e-10`). -/
def nr_maxIter_default : ℤ := 100

def nr_tol_default : ℚ := 1e-10

/-- The elementwise state update `x[i] += delta[i]` for `i < x.size()`
(newton_raphson.cpp line 45); reads past the end of `delta` are undefined
behavior in the source and modelled by the default `0`. -/
def vecAdd (x delta : List ℚ) : List ℚ :=
  (List.range x.length).map (fun i => x.getD i 0 + delta.getD i 0)

/-- One Newton update (newton_raphson.cpp lines 28-45): choose the Jacobian
(`J_f(x)` when a Jacobian was supplied, else `forward_difference(f, x)` at
the default step), negate the residual in place, solve `J·delta = -F`, and
add `delta` to `x`. -/
def newtonUpdate (f : List ℚ → List ℚ)
    (J_f : Option (List ℚ → List (List ℚ))) (x : List ℚ) : List ℚ :=
  let Fx := f x
  let J := match J_f with
    | some jf => jf x
    | none => forward_difference f x fd_h_default
  let delta := gaussian_elimination J (Fx.map (fun val => -val))
  vecAdd x delta

/-- The iteration loop of `newton_raphson` (lines 18-46): at each pass
evaluate the residual, return the current `x` when `‖F(x)‖ < tol`
(see `normLt`), otherwise perform the Newton update and continue; when the
iteration budget is exhausted the current `x` is returned (line 48). -/
def newton_loop (f : List ℚ → List ℚ)
    (J_f : Option (List ℚ → List (List ℚ))) (tol : ℚ) :
    ℕ → List ℚ → List ℚ
  | 0, x => x
  | fuel + 1, x =>
      if normLt (f x) tol then x
      else newton_loop f J_f tol fuel (newtonUpdate f J_f x)

/-- `newton_raphson` (lines 9-49).  `maxIter` is a C++ `int`; the loop
`for (int iter = 0; iter < maxIter; ++iter)` executes `max maxIter 0`
times, i.e. `maxIter.toNat` passes. -/
def newton_raphson (f : List ℚ → List ℚ) (x0 : List ℚ)
    (J_f : Option (List ℚ → List (List ℚ))) (maxIter : ℤ) (tol : ℚ) :
    List ℚ :=
  newton_loop f J_f tol maxIter.toNat x0

/-- Call counters for the instrumented Newton loop: `fCalls` counts the
residual evaluations made directly by the loop (`Fx = f(x)`, line 20),
`jacCalls` the Jacobian evaluations (a call of the user `J_f` at line 33 or
of `forward_difference` at line 36), `linCalls` the linear solves
(`gaussian_elimination`, line 42). -/
structure NRStats where
  fCalls : ℕ
  jacCalls : ℕ
  linCalls : ℕ
deriving DecidableEq

/-- The Newton loop instrumented with the call counters of `NRStats`;
its value component performs exactly the computation of `newton_loop`
(see `newton_loop_instr_fst`). -/
def newton_loop_instr (f : List ℚ → List ℚ)
    (J_f : Option (List ℚ → List (List ℚ))) (tol : ℚ) :
    ℕ → List ℚ → List ℚ × NRStats
  | 0, x => (x, ⟨0, 0, 0⟩)
  | fuel + 1, x =>
      if normLt (f x) tol then (x, ⟨1, 0, 0⟩)
      else
        let r := newton_loop_instr f J_f tol fuel (newtonUpdate f J_f x)
        (r.1, ⟨r.2.fCalls + 1, r.2.jacCalls + 1, r.2.linCalls + 1⟩)

/-- `newton_raphson` instrumented with call counters. -/
def newton_raphson_instr (f : List ℚ → List ℚ) (x0 : List ℚ)
    (J_f : Option (List ℚ → List (List ℚ))) (maxIter : ℤ) (tol : ℚ) :
    List ℚ × NRStats :=
  newton_loop_instr f J_f tol maxIter.toNat x0

lemma newton_loop_instr_fst (f : List ℚ → List ℚ)
    (J_f : Option (List ℚ → List (List ℚ))) (tol : ℚ) :
    ∀ (fuel : ℕ) (x : List ℚ),
      (newton_loop_instr f J_f tol fuel x).1 = newton_loop f J_f tol fuel x := by
  intro fuel
  induction fuel with
  | zero => intro x; rfl
  | succ fuel ih =>
      intro x
      by_cases hc : normLt (f x) tol <;>
        simp [newton_loop_instr, newton_loop, hc, ih]

lemma newton_loop_length (f : List ℚ → List ℚ)
    (J_f : Option (List ℚ → List (List ℚ))) (tol : ℚ) :
    ∀ (fuel : ℕ) (x : List ℚ),
      (newton_loop f J_f tol fuel x).length = x.length := by
  intro fuel
  induction fuel with
  | zero => intro x; rfl
  | succ fuel ih =>
      intro x
      by_cases hc : normLt (f x) tol
      · simp [newton_loop, hc]
      · simp [newton_loop, hc, ih, newtonUpdate, vecAdd]

lemma newton_loop_converged (f : List ℚ → List ℚ)
    (J_f : Option (List ℚ → List (List ℚ))) (tol : ℚ) (fuel : ℕ) (x : List ℚ)
    (hc : normLt (f x) tol = true) :
    newton_loop f J_f tol (fuel + 1) x = x := by
  simp [newton_loop, hc]

lemma newton_loop_exhaust (f : List ℚ → List ℚ)
    (J_f : Option (List ℚ → List (List ℚ))) (tol : ℚ) :
    ∀ (fuel : ℕ) (x : List ℚ),
      (∀ k, k < fuel → normLt (f ((newtonUpdate f J_f)^[k] x)) tol = false) →
      newton_loop f J_f tol fuel x = (newtonUpdate f J_f)^[fuel] x := by
  intro fuel
  induction fuel with
  | zero => intro x _; rfl
  | succ fuel ih =>
      intro x hx
      have h0 : normLt (f x) tol = false := by
        simpa using hx 0 (Nat.succ_pos fuel)
      rw [newton_loop, h0]
      simp only [Bool.false_eq_true, if_false]
      rw [ih (newtonUpdate f J_f x) (fun k hk => by
        simpa [Function.iterate_succ_apply] using hx (k + 1) (by omega))]
      rw [Function.iterate_succ_apply]

/- ### ODEStepper family (src/src/ode/*.cpp) -/

/-- The `Solution` record (src/include/solvers/ode.h): parallel lists of
time samples and state vectors. -/
structure Solution where
  t : List ℚ
  y : List (List ℚ)
deriving DecidableEq

/-- Error message of the `h <= 0.0` guard, shared verbatim by all three
steppers. -/
def invalid_h_msg : String := "Step size h must be positive."

/-- Error message of the `t1 <= t0` guard, shared verbatim by all three
steppers. -/
def invalid_t_msg : String := "t1 must be greater than t0."

/-- `steps = static_cast<int>(std::ceil((t1 - t0) / h))` (e.g.
euler_forward.cpp line 57); for the valid-argument case the quotient is
positive, so the int cast of the ceiling is its `toNat`. -/
def num_steps (t0 t1 h : ℚ) : ℕ := (Int.ceil ((t1 - t0) / h)).toNat

/-- The shared time-stepping loop shape (e.g. euler_forward.cpp lines
60-78): `t[0] = t0`, `y[0] = y0`, and for `i = 0 .. steps-1` the state is
advanced by the stepper-specific update `next t[i] y[i]` while
`t[i+1] = t[i] + h`.  Returns the filled `t` and `y` arrays. -/
def stepLoop (next : ℚ → List ℚ → List ℚ) (h : ℚ) :
    ℕ → ℚ → List ℚ → List ℚ × List (List ℚ)
  | 0, t, y => ([t], [y])
  | steps + 1, t, y =>
      (t :: (stepLoop next h steps (t + h) (next t y)).1,
       y :: (stepLoop next h steps (t + h) (next t y)).2)

/-- Forward Euler update (euler_forward.cpp lines 67-78):
`y[i+1][j] = y[i][j] + h * dydt[j]` for `j < y[i].size()`, with
`dydt = f(t[i], y[i])`. -/
def eulerNext (f : ℚ → List ℚ → List ℚ) (h t : ℚ) (y : List ℚ) : List ℚ :=
  let dydt := f t y
  (List.range y.length).map (fun j => y.getD j 0 + h * dydt.getD j 0)

/-- Classical RK4 update (runge_kutta_4.cpp lines 162-196). -/
def rk4Next (f : ℚ → List ℚ → List ℚ) (h t : ℚ) (y : List ℚ) : List ℚ :=
  let n := y.length
  let k1 := f t y
  let yk2 := (List.range n).map (fun j => y.getD j 0 + 0.5 * h * k1.getD j 0)
  let k2 := f (t + 0.5 * h) yk2
  let yk3 := (List.range n).map (fun j => y.getD j 0 + 0.5 * h * k2.getD j 0)
  let k3 := f (t + 0.5 * h) yk3
  let yk4 := (List.range n).map (fun j => y.getD j 0 + h * k3.getD j 0)
  let k4 := f (t + h) yk4
  (List.range n).map (fun j =>
    y.getD j 0 +
      h / 6 * (k1.getD j 0 + 2 * k2.getD j 0 + 2 * k3.getD j 0 + k4.getD j 0))

/-- Per-step residual of the implicit method (euler_backward.cpp lines
118-125): `F(x)[j] = x[j] - yprev[j] - h * f(tnext, x)[j]` for
`j < x.size()`, capturing the target time `tnext = t[i+1]` and the previous
state `yprev = y[i]` by value. -/
def eulerBackwardResidual (f : ℚ → List ℚ → List ℚ) (h tnext : ℚ)
    (yprev : List ℚ) (x : List ℚ) : List ℚ :=
  let fx := f tnext x
  (List.range x.length).map
    (fun j => x.getD j 0 - yprev.getD j 0 - h * fx.getD j 0)

/-- Backward Euler update (euler_backward.cpp lines 112-129):
`y[i+1] = newton_raphson(F, y[i])` with the per-step residual and the
solver's default Jacobian choice, iteration budget and tolerance. -/
def ebNext (f : ℚ → List ℚ → List ℚ) (h t : ℚ) (y : List ℚ) : List ℚ :=
  newton_raphson (eulerBackwardResidual f h (t + h) y) y none
    nr_maxIter_default nr_tol_default

/-- `euler_forward` (src/src/ode/euler_forward.cpp lines 44-82): validate
`h` then `t1`, compute the step count, and run the explicit Euler loop. -/
def euler_forward (f : ℚ → List ℚ → List ℚ) (t0 t1 : ℚ) (y0 : List ℚ)
    (h : ℚ) : Except String Solution :=
  if h ≤ 0 then Except.error invalid_h_msg
  else if t1 ≤ t0 then Except.error invalid_t_msg
  else
    let r := stepLoop (fun t y => eulerNext f h t y) h (num_steps t0 t1 h) t0 y0
    Except.ok ⟨r.1, r.2⟩

/-- `runge_kutta_4` (src/src/ode/runge_kutta_4.cpp lines 139-204): same
guards and grid, RK4 state update. -/
def runge_kutta_4 (f : ℚ → List ℚ → List ℚ) (t0 t1 : ℚ) (y0 : List ℚ)
    (h : ℚ) : Except String Solution :=
  if h ≤ 0 then Except.error invalid_h_msg
  else if t1 ≤ t0 then Except.error invalid_t_msg
  else
    let r := stepLoop (fun t y => rk4Next f h t y) h (num_steps t0 t1 h) t0 y0
    Except.ok ⟨r.1, r.2⟩

/-- `euler_backward` (src/src/ode/euler_backward.cpp lines 89-133): same
guards and grid, per-step Newton solve. -/
def euler_backward (f : ℚ → List ℚ → List ℚ) (t0 t1 : ℚ) (y0 : List ℚ)
    (h : ℚ) : Except String Solution :=
  if h ≤ 0 then Except.error invalid_h_msg
  else if t1 ≤ t0 then Except.error invalid_t_msg
  else
    let r := stepLoop (fun t y => ebNext f h t y) h (num_steps t0 t1 h) t0 y0
    Except.ok ⟨r.1, r.2⟩

/-- The second `euler_forward` implementation
(src/src/solvers/euler_forward.cpp lines 5-42): identical guards, step
count, and forward Euler loop. -/
def solvers_euler_forward (f : ℚ → List ℚ → List ℚ) (t0 t1 : ℚ)
    (y0 : List ℚ) (h : ℚ) : Except String Solution :=
  if h ≤ 0 then Except.error invalid_h_msg
  else if t1 ≤ t0 then Except.error invalid_t_msg
  else
    let r := stepLoop (fun t y => eulerNext f h t y) h (num_steps t0 t1 h) t0 y0
    Except.ok ⟨r.1, r.2⟩

/-- The identically-zero derivative `f(t, y) = 0` of the spec's algebraic
tests: the zero vector of the state's dimension. -/
def fZero (_t : ℚ) (y : List ℚ) : List ℚ := List.replicate y.length 0

/- ### Lemmas about the step loop -/

lemma stepLoop_t_length (next : ℚ → List ℚ → List ℚ) (h : ℚ) :
    ∀ (n : ℕ) (t : ℚ) (y : List ℚ), (stepLoop next h n t y).1.length = n + 1 := by
  intro n
  induction n with
  | zero => intro t y; rfl
  | succ n ih => intro t y; simp [stepLoop, ih]

lemma stepLoop_y_length (next : ℚ → List ℚ → List ℚ) (h : ℚ) :
    ∀ (n : ℕ) (t : ℚ) (y : List ℚ), (stepLoop next h n t y).2.length = n + 1 := by
  intro n
  induction n with
  | zero => intro t y; rfl
  | succ n ih => intro t y; simp [stepLoop, ih]

lemma stepLoop_t_getD (next : ℚ → List ℚ → List ℚ) (h : ℚ) :
    ∀ (n : ℕ) (t : ℚ) (y : List ℚ) (i : ℕ), i ≤ n →
      (stepLoop next h n t y).1.getD i 0 = t + i * h := by
  intro n
  induction n with
  | zero =>
      intro t y i hi
      interval_cases i
      simp [stepLoop]
  | succ n ih =>
      intro t y i hi
      cases i with
      | zero => simp [stepLoop]
      | succ i =>
          have := ih (t + h) (next t y) i (by omega)
          rw [stepLoop]
          simp only [List.getD_cons_succ]
          rw [this]
          push_cast
          ring

lemma stepLoop_y_getD_zero (next : ℚ → List ℚ → List ℚ) (h : ℚ) (n : ℕ)
    (t : ℚ) (y : List ℚ) : (stepLoop next h n t y).2.getD 0 [] = y := by
  cases n <;> simp [stepLoop]

lemma stepLoop_y_fixed (next : ℚ → List ℚ → List ℚ) (h : ℚ)
    (hn : ∀ t y, next t y = y) :
    ∀ (n : ℕ) (t : ℚ) (y : List ℚ) (i : ℕ), i ≤ n →
      (stepLoop next h n t y).2.getD i [] = y := by
  intro n
  induction n with
  | zero =>
      intro t y i hi
      interval_cases i
      simp [stepLoop]
  | succ n ih =>
      intro t y i hi
      cases i with
      | zero => simp [stepLoop]
      | succ i =>
          rw [stepLoop]
          simp only [List.getD_cons_succ]
          rw [hn t y, ih (t + h) y i (by omega)]

lemma stepLoop_y_len_inv (next : ℚ → List ℚ → List ℚ) (h : ℚ)
    (hn : ∀ t y, (next t y).length = y.length) :
    ∀ (n : ℕ) (t : ℚ) (y : List ℚ) (i : ℕ), i ≤ n →
      ((stepLoop next h n t y).2.getD i []).length = y.length := by
  intro n
  induction n with
  | zero =>
      intro t y i hi
      interval_cases i
      simp [stepLoop]
  | succ n ih =>
      intro t y i hi
      cases i with
      | zero => simp [stepLoop]
      | succ i =>
          rw [stepLoop]
          simp only [List.getD_cons_succ]
          rw [ih (t + h) (next t y) i (by omega), hn t y]

/- ### Lemmas about the stepper updates -/

lemma eulerNext_length (f : ℚ → List ℚ → List ℚ) (h t : ℚ) (y : List ℚ) :
    (eulerNext f h t y).length = y.length := by
  simp [eulerNext]

lemma rk4Next_length (f : ℚ → List ℚ → List ℚ) (h t : ℚ) (y : List ℚ) :
    (rk4Next f h t y).length = y.length := by
  simp [rk4Next]

lemma ebNext_length (f : ℚ → List ℚ → List ℚ) (h t : ℚ) (y : List ℚ) :
    (ebNext f h t y).length = y.length := by
  unfold ebNext newton_raphson
  exact newton_loop_length _ _ _ _ _

lemma eulerNext_fZero (h t : ℚ) (y : List ℚ) : eulerNext fZero h t y = y := by
  simp only [eulerNext, fZero, getD_replicate_zero, mul_zero, add_zero]
  exact list_range_map_getD y 0

lemma rk4Next_fZero (h t : ℚ) (y : List ℚ) : rk4Next fZero h t y = y := by
  simp only [rk4Next, fZero, List.length_map, List.length_range,
    getD_replicate_zero, mul_zero, add_zero, zero_add]
  simp only [list_range_map_getD y 0]

lemma ebResidual_self (h tn : ℚ) (yp : List ℚ) :
    eulerBackwardResidual fZero h tn yp yp = List.replicate yp.length 0 := by
  simp only [eulerBackwardResidual, fZero, getD_replicate_zero, mul_zero,
    sub_zero, sub_self]
  simp [List.map_const']

lemma eb_newton_fixed (h tn : ℚ) (yp : List ℚ) :
    newton_raphson (eulerBackwardResidual fZero h tn yp) yp none
      nr_maxIter_default nr_tol_default = yp := by
  have hconv :
      normLt (eulerBackwardResidual fZero h tn yp yp) nr_tol_default = true := by
    rw [ebResidual_self, normLt, vec_norm_sq_replicate_zero]
    norm_num [nr_tol_default]
  rw [newton_raphson, show nr_maxIter_default.toNat = 99 + 1 from rfl]
  exact newton_loop_converged _ _ _ _ _ hconv

lemma ebNext_fZero (h t : ℚ) (y : List ℚ) : ebNext fZero h t y = y := by
  unfold ebNext
  exact eb_newton_fixed h (t + h) y

/- ### The shared grid contract of the steppers -/

/-- Shape of a `Solution` produced by a valid stepper call (spec §4.4 and
§8): `steps + 1` parallel samples with `steps = ceil((t1-t0)/h)`, starting
at `t0`, `y0`, with the time recurrence `t[i+1] = t[i] + h`. -/
def grid_ok (t0 t1 h : ℚ) (y0 : List ℚ) (s : Solution) : Prop :=
  (s.t.length : ℤ) = Int.ceil ((t1 - t0) / h) + 1 ∧
  s.y.length = s.t.length ∧
  s.t.getD 0 0 = t0 ∧
  s.y.getD 0 [] = y0 ∧
  ∀ i, i + 1 < s.t.length → s.t.getD (i + 1) 0 = s.t.getD i 0 + h

lemma num_steps_cast (t0 t1 h : ℚ) (hh : 0 < h) (ht : t0 < t1) :
    (num_steps t0 t1 h : ℤ) = Int.ceil ((t1 - t0) / h) := by
  have hceil : 0 < Int.ceil ((t1 - t0) / h) :=
    Int.ceil_pos.mpr (div_pos (sub_pos.mpr ht) hh)
  rw [num_steps, Int.toNat_of_nonneg (le_of_lt hceil)]

lemma stepLoop_grid (next : ℚ → List ℚ → List ℚ) (t0 t1 h : ℚ) (y0 : List ℚ)
    (hh : 0 < h) (ht : t0 < t1) :
    grid_ok t0 t1 h y0
      ⟨(stepLoop next h (num_steps t0 t1 h) t0 y0).1,
       (stepLoop next h (num_steps t0 t1 h) t0 y0).2⟩ := by
  have hnum := num_steps_cast t0 t1 h hh ht
  refine ⟨?_, ?_, ?_, ?_, ?_⟩
  · rw [stepLoop_t_length]
    push_cast
    omega
  · rw [stepLoop_t_length, stepLoop_y_length]
  · have := stepLoop_t_getD next h (num_steps t0 t1 h) t0 y0 0 (Nat.zero_le _)
    simpa using this
  · exact stepLoop_y_getD_zero next h (num_steps t0 t1 h) t0 y0
  · intro i hi
    rw [stepLoop_t_length] at hi
    rw [stepLoop_t_getD next h _ t0 y0 (i + 1) (by omega),
      stepLoop_t_getD next h _ t0 y0 i (by omega)]
    push_cast
    ring

lemma euler_forward_valid (f : ℚ → List ℚ → List ℚ) (t0 t1 : ℚ) (y0 : List ℚ)
    (h : ℚ) (hh : 0 < h) (ht : t0 < t1) :
    euler_forward f t0 t1 y0 h = Except.ok
      ⟨(stepLoop (fun t y => eulerNext f h t y) h (num_steps t0 t1 h) t0 y0).1,
       (stepLoop (fun t y => eulerNext f h t y) h (num_steps t0 t1 h) t0 y0).2⟩ := by
  rw [euler_forward, if_neg (not_le.mpr hh), if_neg (not_le.mpr ht)]

lemma runge_kutta_4_valid (f : ℚ → List ℚ → List ℚ) (t0 t1 : ℚ) (y0 : List ℚ)
    (h : ℚ) (hh : 0 < h) (ht : t0 < t1) :
    runge_kutta_4 f t0 t1 y0 h = Except.ok
      ⟨(stepLoop (fun t y => rk4Next f h t y) h (num_steps t0 t1 h) t0 y0).1,
       (stepLoop (fun t y => rk4Next f h t y) h (num_steps t0 t1 h) t0 y0).2⟩ := by
  rw [runge_kutta_4, if_neg (not_le.mpr hh), if_neg (not_le.mpr ht)]

lemma euler_backward_valid (f : ℚ → List ℚ → List ℚ) (t0 t1 : ℚ) (y0 : List ℚ)
    (h : ℚ) (hh : 0 < h) (ht : t0 < t1) :
    euler_backward f t0 t1 y0 h = Except.ok
      ⟨(stepLoop (fun t y => ebNext f h t y) h (num_steps t0 t1 h) t0 y0).1,
       (stepLoop (fun t y => ebNext f h t y) h (num_steps t0 t1 h) t0 y0).2⟩ := by
  rw [euler_backward, if_neg (not_le.mpr hh), if_neg (not_le.mpr ht)]

/- ### Claim theorems -/

/-- C1: for every derivative `f`, every `h > 0` and every `t1 > t0`, each of
the three steppers returns a `Solution` with
`len(t) = len(y) = ceil((t1-t0)/h) + 1`, `t[0] = t0`, `y[0] = y0`, and the
time grid built by `t[i+1] = t[i] + h` (see `grid_ok`). -/
theorem ode_grid_shape (f : ℚ → List ℚ → List ℚ) (t0 t1 : ℚ) (y0 : List ℚ)
    (h : ℚ) (hh : 0 < h) (ht : t0 < t1) :
    (∃ s, euler_forward f t0 t1 y0 h = Except.ok s ∧ grid_ok t0 t1 h y0 s) ∧
    (∃ s, runge_kutta_4 f t0 t1 y0 h = Except.ok s ∧ grid_ok t0 t1 h y0 s) ∧
    (∃ s, euler_backward f t0 t1 y0 h = Except.ok s ∧ grid_ok t0 t1 h y0 s) :=
  ⟨⟨_, euler_forward_valid f t0 t1 y0 h hh ht,
      stepLoop_grid _ t0 t1 h y0 hh ht⟩,
   ⟨_, runge_kutta_4_valid f t0 t1 y0 h hh ht,
      stepLoop_grid _ t0 t1 h y0 hh ht⟩,
   ⟨_, euler_backward_valid f t0 t1 y0 h hh ht,
      stepLoop_grid _ t0 t1 h y0 hh ht⟩⟩

/-- Witness for C1 at `f = fZero`, `t0 = 0`, `t1 = 5/2`, `y0 = [1]`,
`h = 1`. -/
theorem ode_grid_shape_witness :
    (∃ s, euler_forward fZero 0 (5 / 2) [1] 1 = Except.ok s ∧
      grid_ok 0 (5 / 2) 1 [1] s) ∧
    (∃ s, runge_kutta_4 fZero 0 (5 / 2) [1] 1 = Except.ok s ∧
      grid_ok 0 (5 / 2) 1 [1] s) ∧
    (∃ s, euler_backward fZero 0 (5 / 2) [1] 1 = Except.ok s ∧
      grid_ok 0 (5 / 2) 1 [1] s) :=
  ode_grid_shape fZero 0 (5 / 2) [1] 1 (by norm_num) (by norm_num)

/-- C2: every stepper raises the invalid-argument error exactly when
`h ≤ 0` or `t1 ≤ t0`; in that case the result is the same for every
derivative function (the derivative is never consulted and no `Solution` is
produced), and for `h > 0`, `t1 > t0` a `Solution` is returned. -/
theorem stepper_invalid_args (f g : ℚ → List ℚ → List ℚ) (t0 t1 : ℚ)
    (y0 : List ℚ) (h : ℚ) :
    ((∃ e, euler_forward f t0 t1 y0 h = Except.error e) ↔ h ≤ 0 ∨ t1 ≤ t0) ∧
    (h ≤ 0 ∨ t1 ≤ t0 →
      euler_forward f t0 t1 y0 h = euler_forward g t0 t1 y0 h) ∧
    (0 < h ∧ t0 < t1 → ∃ s, euler_forward f t0 t1 y0 h = Except.ok s) ∧
    ((∃ e, runge_kutta_4 f t0 t1 y0 h = Except.error e) ↔ h ≤ 0 ∨ t1 ≤ t0) ∧
    (h ≤ 0 ∨ t1 ≤ t0 →
      runge_kutta_4 f t0 t1 y0 h = runge_kutta_4 g t0 t1 y0 h) ∧
    (0 < h ∧ t0 < t1 → ∃ s, runge_kutta_4 f t0 t1 y0 h = Except.ok s) ∧
    ((∃ e, euler_backward f t0 t1 y0 h = Except.error e) ↔ h ≤ 0 ∨ t1 ≤ t0) ∧
    (h ≤ 0 ∨ t1 ≤ t0 →
      euler_backward f t0 t1 y0 h = euler_backward g t0 t1 y0 h) ∧
    (0 < h ∧ t0 < t1 → ∃ s, euler_backward f t0 t1 y0 h = Except.ok s) := by
  by_cases hh : h ≤ 0 <;> by_cases ht : t1 ≤ t0 <;>
    simp [euler_forward, runge_kutta_4, euler_backward, hh, ht]

/-- Witness for C2 at two distinct derivative functions and concrete
arguments. -/
theorem stepper_invalid_args_witness :
    ((∃ e, euler_forward fZero 0 1 [] 1 = Except.error e) ↔
      (1 : ℚ) ≤ 0 ∨ (1 : ℚ) ≤ 0) ∧
    ((1 : ℚ) ≤ 0 ∨ (1 : ℚ) ≤ 0 →
      euler_forward fZero 0 1 [] 1 = euler_forward (fun _t y => y) 0 1 [] 1) ∧
    ((0 : ℚ) < 1 ∧ (0 : ℚ) < 1 →
      ∃ s, euler_forward fZero 0 1 [] 1 = Except.ok s) ∧
    ((∃ e, runge_kutta_4 fZero 0 1 [] 1 = Except.error e) ↔
      (1 : ℚ) ≤ 0 ∨ (1 : ℚ) ≤ 0) ∧
    ((1 : ℚ) ≤ 0 ∨ (1 : ℚ) ≤ 0 →
      runge_kutta_4 fZero 0 1 [] 1 = runge_kutta_4 (fun _t y => y) 0 1 [] 1) ∧
    ((0 : ℚ) < 1 ∧ (0 : ℚ) < 1 →
      ∃ s, runge_kutta_4 fZero 0 1 [] 1 = Except.ok s) ∧
    ((∃ e, euler_backward fZero 0 1 [] 1 = Except.error e) ↔
      (1 : ℚ) ≤ 0 ∨ (1 : ℚ) ≤ 0) ∧
    ((1 : ℚ) ≤ 0 ∨ (1 : ℚ) ≤ 0 →
      euler_backward fZero 0 1 [] 1 = euler_backward (fun _t y => y) 0 1 [] 1) ∧
    ((0 : ℚ) < 1 ∧ (0 : ℚ) < 1 →
      ∃ s, euler_backward fZero 0 1 [] 1 = Except.ok s) :=
  stepper_invalid_args fZero (fun _t y => y) 0 1 [] 1

/-- C3: `newton_raphson` is total (by its Lean type it always yields a
vector and signals no error); when the convergence test fails at every
iterate, it returns the state obtained after exactly `maxIter` Newton
updates `x ← x + delta`, `J·delta = -F(x)` (see `newtonUpdate`). -/
theorem newton_exhausts_maxIter (f : List ℚ → List ℚ) (x0 : List ℚ)
    (J_f : Option (List ℚ → List (List ℚ))) (maxIter : ℤ) (tol : ℚ)
    (hdiv : ∀ k, k < maxIter.toNat →
      normLt (f ((newtonUpdate f J_f)^[k] x0)) tol = false) :
    newton_raphson f x0 J_f maxIter tol =
      (newtonUpdate f J_f)^[maxIter.toNat] x0 :=
  newton_loop_exhaust f J_f tol maxIter.toNat x0 hdiv

/-- Witness for C3: a constant residual never meets the tolerance, so three
iterations are performed. -/
theorem newton_exhausts_maxIter_witness :
    newton_raphson (fun _x => [1]) [0] (some (fun _x => [[1]])) 3 1 =
      (newtonUpdate (fun _x => [1]) (some (fun _x => [[1]])))^[(3 : ℤ).toNat]
        [0] :=
  newton_exhausts_maxIter (fun _x => [1]) [0] (some (fun _x => [[1]])) 3 1
    (fun k hk => by norm_num [normLt, vec_norm_sq])

/-- C4: when `‖f(x0)‖₂ < tol` (rendered exactly by `normLt`) and
`maxIter ≥ 1`, `newton_raphson` returns `x0` itself, after a single
residual evaluation and with no Jacobian evaluation and no linear solve
(the instrumented counters are `⟨1, 0, 0⟩`). -/
theorem newton_immediate_return (f : List ℚ → List ℚ) (x0 : List ℚ)
    (J_f : Option (List ℚ → List (List ℚ))) (maxIter : ℤ) (tol : ℚ)
    (hIter : 1 ≤ maxIter) (hconv : normLt (f x0) tol = true) :
    newton_raphson f x0 J_f maxIter tol = x0 ∧
    newton_raphson_instr f x0 J_f maxIter tol = (x0, ⟨1, 0, 0⟩) := by
  obtain ⟨k, hk⟩ : ∃ k, maxIter.toNat = k + 1 := ⟨maxIter.toNat - 1, by omega⟩
  constructor
  · rw [newton_raphson, hk]
    exact newton_loop_converged f J_f tol k x0 hconv
  · rw [newton_raphson_instr, hk]
    simp [newton_loop_instr, hconv]

/-- Witness for C4: `f(x) = x - 3` from `x0 = [3]` is already at a root. -/
theorem newton_immediate_return_witness :
    newton_raphson (fun x => [x.getD 0 0 - 3]) [3] none nr_maxIter_default
      nr_tol_default = [3] ∧
    newton_raphson_instr (fun x => [x.getD 0 0 - 3]) [3] none
      nr_maxIter_default nr_tol_default = ([3], ⟨1, 0, 0⟩) :=
  newton_immediate_return (fun x => [x.getD 0 0 - 3]) [3] none
    nr_maxIter_default nr_tol_default (by norm_num [nr_maxIter_default])
    (by norm_num [normLt, vec_norm_sq, nr_tol_default])

/-- C9: with `maxIter ≤ 0` the iteration loop never runs: `newton_raphson`
returns `x0` unchanged and the instrumented counters show that neither the
residual, nor any Jacobian, nor the linear solver is ever evaluated. -/
theorem newton_nonpositive_maxIter (f : List ℚ → List ℚ) (x0 : List ℚ)
    (J_f : Option (List ℚ → List (List ℚ))) (maxIter : ℤ) (tol : ℚ)
    (hIter : maxIter ≤ 0) :
    newton_raphson f x0 J_f maxIter tol = x0 ∧
    newton_raphson_instr f x0 J_f maxIter tol = (x0, ⟨0, 0, 0⟩) := by
  have h0 : maxIter.toNat = 0 := by omega
  rw [newton_raphson, newton_raphson_instr, h0]
  exact ⟨rfl, rfl⟩

/-- Witness for C9 at `maxIter = -5`. -/
theorem newton_nonpositive_maxIter_witness :
    newton_raphson (fun _x => [1]) [7] none (-5) 1 = [7] ∧
    newton_raphson_instr (fun _x => [1]) [7] none (-5) 1 = ([7], ⟨0, 0, 0⟩) :=
  newton_nonpositive_maxIter (fun _x => [1]) [7] none (-5) 1 (by norm_num)

lemma stepLoop_len_eq (next : ℚ → List ℚ → List ℚ) (h : ℚ) (n : ℕ) (t0 : ℚ)
    (y0 : List ℚ) :
    (stepLoop next h n t0 y0).1.length = (stepLoop next h n t0 y0).2.length := by
  rw [stepLoop_t_length, stepLoop_y_length]

lemma stepLoop_y_fixed_lt (next : ℚ → List ℚ → List ℚ) (h : ℚ)
    (hn : ∀ t y, next t y = y) (n : ℕ) (t0 : ℚ) (y0 : List ℚ) (i : ℕ)
    (hi : i < (stepLoop next h n t0 y0).2.length) :
    (stepLoop next h n t0 y0).2.getD i [] = y0 := by
  rw [stepLoop_y_length] at hi
  exact stepLoop_y_fixed next h hn n t0 y0 i (by omega)

lemma stepLoop_y_len_lt (next : ℚ → List ℚ → List ℚ) (h : ℚ)
    (hn : ∀ t y, (next t y).length = y.length) (n : ℕ) (t0 : ℚ) (y0 : List ℚ)
    (i : ℕ) (hi : i < (stepLoop next h n t0 y0).2.length) :
    ((stepLoop next h n t0 y0).2.getD i []).length = y0.length := by
  rw [stepLoop_y_length] at hi
  exact stepLoop_y_len_inv next h hn n t0 y0 i (by omega)

/-- C7: on the identically-zero derivative every stepper's trajectory is
constant at `y0`, and for the implicit method each per-step Newton solve
returns the previous state unchanged. -/
theorem zero_derivative_constant (t0 t1 : ℚ) (y0 : List ℚ) (h : ℚ)
    (hh : 0 < h) (ht : t0 < t1) :
    (∃ s, euler_forward fZero t0 t1 y0 h = Except.ok s ∧
      ∀ i, i < s.y.length → s.y.getD i [] = y0) ∧
    (∃ s, runge_kutta_4 fZero t0 t1 y0 h = Except.ok s ∧
      ∀ i, i < s.y.length → s.y.getD i [] = y0) ∧
    (∃ s, euler_backward fZero t0 t1 y0 h = Except.ok s ∧
      ∀ i, i < s.y.length → s.y.getD i [] = y0) ∧
    (∀ tn yp, newton_raphson (eulerBackwardResidual fZero h tn yp) yp none
      nr_maxIter_default nr_tol_default = yp) :=
  ⟨⟨_, euler_forward_valid fZero t0 t1 y0 h hh ht,
      fun i hi => stepLoop_y_fixed_lt _ h
        (fun t y => eulerNext_fZero h t y) _ t0 y0 i hi⟩,
   ⟨_, runge_kutta_4_valid fZero t0 t1 y0 h hh ht,
      fun i hi => stepLoop_y_fixed_lt _ h
        (fun t y => rk4Next_fZero h t y) _ t0 y0 i hi⟩,
   ⟨_, euler_backward_valid fZero t0 t1 y0 h hh ht,
      fun i hi => stepLoop_y_fixed_lt _ h
        (fun t y => ebNext_fZero h t y) _ t0 y0 i hi⟩,
   fun tn yp => eb_newton_fixed h tn yp⟩

/-- Witness for C7 at `t0 = 0`, `t1 = 2`, `y0 = [3, 4]`, `h = 1`. -/
theorem zero_derivative_constant_witness :
    (∃ s, euler_forward fZero 0 2 [3, 4] 1 = Except.ok s ∧
      ∀ i, i < s.y.length → s.y.getD i [] = [3, 4]) ∧
    (∃ s, runge_kutta_4 fZero 0 2 [3, 4] 1 = Except.ok s ∧
      ∀ i, i < s.y.length → s.y.getD i [] = [3, 4]) ∧
    (∃ s, euler_backward fZero 0 2 [3, 4] 1 = Except.ok s ∧
      ∀ i, i < s.y.length → s.y.getD i [] = [3, 4]) ∧
    (∀ tn yp, newton_raphson (eulerBackwardResidual fZero 1 tn yp) yp none
      nr_maxIter_default nr_tol_default = yp) :=
  zero_derivative_constant 0 2 [3, 4] 1 (by norm_num) (by norm_num)

/-- C8: for every valid call on a dimension-preserving derivative, each
stepper returns parallel `t`/`y` lists and every state sample keeps the
dimension of `y0`. -/
theorem state_dimension_preserved (f : ℚ → List ℚ → List ℚ) (t0 t1 : ℚ)
    (y0 : List ℚ) (h : ℚ) (hh : 0 < h) (ht : t0 < t1)
    (_hf : ∀ t y, (f t y).length = y.length) :
    (∃ s, euler_forward f t0 t1 y0 h = Except.ok s ∧
      s.t.length = s.y.length ∧
      ∀ i, i < s.y.length → (s.y.getD i []).length = y0.length) ∧
    (∃ s, runge_kutta_4 f t0 t1 y0 h = Except.ok s ∧
      s.t.length = s.y.length ∧
      ∀ i, i < s.y.length → (s.y.getD i []).length = y0.length) ∧
    (∃ s, euler_backward f t0 t1 y0 h = Except.ok s ∧
      s.t.length = s.y.length ∧
      ∀ i, i < s.y.length → (s.y.getD i []).length = y0.length) :=
  ⟨⟨_, euler_forward_valid f t0 t1 y0 h hh ht,
      stepLoop_len_eq _ h _ t0 y0,
      fun i hi => stepLoop_y_len_lt _ h
        (fun t y => eulerNext_length f h t y) _ t0 y0 i hi⟩,
   ⟨_, runge_kutta_4_valid f t0 t1 y0 h hh ht,
      stepLoop_len_eq _ h _ t0 y0,
      fun i hi => stepLoop_y_len_lt _ h
        (fun t y => rk4Next_length f h t y) _ t0 y0 i hi⟩,
   ⟨_, euler_backward_valid f t0 t1 y0 h hh ht,
      stepLoop_len_eq _ h _ t0 y0,
      fun i hi => stepLoop_y_len_lt _ h
        (fun t y => ebNext_length f h t y) _ t0 y0 i hi⟩⟩

/-- Witness for C8 at the dimension-preserving derivative `fZero`. -/
theorem state_dimension_preserved_witness :
    (∃ s, euler_forward fZero 0 2 [1, 2] 1 = Except.ok s ∧
      s.t.length = s.y.length ∧
      ∀ i, i < s.y.length → (s.y.getD i []).length = [1, 2].length) ∧
    (∃ s, runge_kutta_4 fZero 0 2 [1, 2] 1 = Except.ok s ∧
      s.t.length = s.y.length ∧
      ∀ i, i < s.y.length → (s.y.getD i []).length = [1, 2].length) ∧
    (∃ s, euler_backward fZero 0 2 [1, 2] 1 = Except.ok s ∧
      s.t.length = s.y.length ∧
      ∀ i, i < s.y.length → (s.y.getD i []).length = [1, 2].length) :=
  state_dimension_preserved fZero 0 2 [1, 2] 1 (by norm_num) (by norm_num)
    (fun t y => by simp [fZero])

/-- C5: `forward_difference f x h` is the `n × n` matrix with
`J[r][c] = (f_r(x + h·e_c) - f_r(x)) / h` where the perturbed point
`perturb x c h` adds `h` to coordinate `c` only; moreover the result
consults `f` only at the base point and the `n` perturbed points (one
evaluation per column, one shared base evaluation). -/
theorem forward_difference_formula (f : List ℚ → List ℚ) (x : List ℚ)
    (h : ℚ) :
    (forward_difference f x h).length = x.length ∧
    (∀ r, r < x.length →
      ((forward_difference f x h).getD r []).length = x.length) ∧
    (∀ r c, r < x.length → c < x.length →
      ((forward_difference f x h).getD r []).getD c 0 =
        ((f (perturb x c h)).getD r 0 - (f x).getD r 0) / h) ∧
    (∀ c, (perturb x c h).length = x.length ∧
      (c < x.length → (perturb x c h).getD c 0 = x.getD c 0 + h) ∧
      (∀ k, k ≠ c → (perturb x c h).getD k 0 = x.getD k 0)) ∧
    (∀ g : List ℚ → List ℚ, g x = f x →
      (∀ c, c < x.length → g (perturb x c h) = f (perturb x c h)) →
      forward_difference g x h = forward_difference f x h) := by
  refine ⟨?_, ?_, ?_, ?_, ?_⟩
  · simp [forward_difference]
  · intro r hr
    simp only [forward_difference]
    rw [range_map_getD_lt _ _ hr]
    simp
  · intro r c hr hc
    simp only [forward_difference]
    rw [range_map_getD_lt _ _ hr, range_map_getD_lt _ _ hc,
      range_map_getD_lt _ _ hc]
  · intro c
    refine ⟨by simp [perturb], fun hc => getD_set_self x c _ hc,
      fun k hk => getD_set_ne x c k _ hk⟩
  · intro g hgx hgp
    simp only [forward_difference]
    have hcols :
        (List.range x.length).map (fun i => g (perturb x i h)) =
          (List.range x.length).map (fun i => f (perturb x i h)) :=
      List.map_congr_left (fun i hi => hgp i (List.mem_range.mp hi))
    rw [hcols, hgx]

/-- Witness for C5: the (0,0) entry of the forward-difference Jacobian of
`v ↦ [v₀²]` at `x = [2]`, `h = 1`. -/
theorem forward_difference_formula_witness :
    ((forward_difference (fun v => [v.getD 0 0 * v.getD 0 0]) [2] 1).getD 0
        []).getD 0 0 =
      (((fun v => [v.getD 0 0 * v.getD 0 0]) (perturb [2] 0 1)).getD 0 0 -
        ((fun v => [v.getD 0 0 * v.getD 0 0]) [2]).getD 0 0) / 1 :=
  (forward_difference_formula (fun v => [v.getD 0 0 * v.getD 0 0]) [2]
    1).2.2.1 0 0 (by norm_num) (by norm_num)

/-- C6: the caller's matrix and right-hand side are unchanged by a call to
`gaussian_elimination` (the C++ signature takes both by value), even though
the solver's private working copies really are mutated, as the pivoting swap
on a concrete system shows. -/
theorem gaussian_elimination_frame :
    (∀ env : CallerEnv, (ge_call env).1 = env) ∧
    forwardElim 2 ([[0, 1], [1, 0]], [1, 2]) ≠
      (([[0, 1], [1, 0]] : List (List ℚ)), ([1, 2] : List ℚ)) := by
  constructor
  · intro env
    rfl
  · intro hcontra
    have heval : forwardElim 2 ([[0, 1], [1, 0]], [1, 2]) =
        ([[1, 0], [0, 1]], [2, 1]) := by
      norm_num [forwardElim, elimStep, pivotIndex, swapRows, swapVec, get2,
        List.range_succ, List.range'_succ]
    rw [heval] at hcontra
    norm_num at hcontra

/-- Witness for C6 at a concrete caller environment. -/
theorem gaussian_elimination_frame_witness :
    (ge_call ⟨[[2]], [3]⟩).1 = ⟨[[2]], [3]⟩ :=
  gaussian_elimination_frame.1 ⟨[[2]], [3]⟩

/-- C10: the two `euler_forward` implementations
(src/src/ode/euler_forward.cpp and src/src/solvers/euler_forward.cpp) are
extensionally equal: identical guards, identical error values, identical
`Solution` values. -/
theorem euler_forward_variants_agree (f : ℚ → List ℚ → List ℚ) (t0 t1 : ℚ)
    (y0 : List ℚ) (h : ℚ) :
    solvers_euler_forward f t0 t1 y0 h = euler_forward f t0 t1 y0 h := rfl
